import Mathlib

/-!
Shallow embedding of the quantumBloch backend simulation/snapshot core:
the gate/circuit data model (`app/domain/models.py`), noise configuration
(`app/domain/noise.py`), gate dispatch and validation
(`app/adapters/qiskit_common.py`), the per-step simulator and snapshot
builder (`app/adapters/simulator_qiskit.py`), and the snapshot service
with its cache, measurement sampler, noise attenuation and run-length
analysis (`app/domain/services.py`).

Python floats are modelled as exact rationals (`ℚ`); complex entries of
state vectors and density matrices as pairs of rationals (`CQ`).  The
third-party qiskit linear-algebra primitives (gate unitaries, Kraus
channel application, partial trace, the `exp(i*phase)` scalar) are
supplied capabilities: they are fields of a `Backend` record over which
all theorems quantify, exactly mirroring the repository's own
`SimulationPort` boundary.  Everything the repository itself computes is
embedded concretely.
-/

namespace QB

/-- Complex number with rational real and imaginary part, modelling the
complex floats flowing through the simulator. -/
structure CQ where
  re : ℚ
  im : ℚ
deriving DecidableEq, Repr

namespace CQ

def zero : CQ := ⟨0, 0⟩

def one : CQ := ⟨1, 0⟩

def add (a b : CQ) : CQ := ⟨a.re + b.re, a.im + b.im⟩

def mul (a b : CQ) : CQ := ⟨a.re * b.re - a.im * b.im, a.re * b.im + a.im * b.re⟩

def conj (a : CQ) : CQ := ⟨a.re, -a.im⟩

end CQ

/-- `app/domain/models.py::Gate` (frozen dataclass). -/
structure Gate where
  name : String
  targets : List Nat
  controls : List Nat := []
  parameters : List ℚ := []
  metadata : List (String × String) := []
deriving DecidableEq, Repr

/-- `app/domain/models.py::Circuit`. -/
structure Circuit where
  qubit_count : Nat
  gates : List Gate := []
  global_phase : Option ℚ := none
deriving DecidableEq, Repr

/-- `app/domain/models.py::BlochVector` — a plain frozen record of three
floats; the constructor performs no normalisation. -/
structure BlochV where
  x : ℚ
  y : ℚ
  z : ℚ
deriving DecidableEq, Repr

/-- `app/domain/noise.py::NoiseConfig`. -/
structure NoiseCfg where
  amplitude_damping : Option ℚ := none
  phase_damping : Option ℚ := none
  depolarizing : Option ℚ := none
deriving DecidableEq, Repr

/-- Python truthiness of an optional float: `None` and `0.0` are falsy. -/
def truthy : Option ℚ → Bool
  | none => false
  | some v => v != 0

/-- `NoiseConfig.enabled`: true iff any strength is present and positive. -/
def NoiseCfg.enabled (nc : NoiseCfg) : Bool :=
  [nc.amplitude_damping, nc.phase_damping, nc.depolarizing].any fun o =>
    match o with
    | none => false
    | some v => decide (0 < v)

/-- One qiskit `QuantumCircuit` instruction appended by
`apply_gate_to_circuit`. -/
inductive COp where
  | idg (qs : List Nat)
  | x (qs : List Nat)
  | y (qs : List Nat)
  | z (qs : List Nat)
  | h (qs : List Nat)
  | s (qs : List Nat)
  | sdg (qs : List Nat)
  | t (qs : List Nat)
  | tdg (qs : List Nat)
  | sx (qs : List Nat)
  | sxdg (qs : List Nat)
  | p (angle : ℚ) (q : Nat)
  | rx (angle : ℚ) (q : Nat)
  | ry (angle : ℚ) (q : Nat)
  | rz (angle : ℚ) (q : Nat)
  | cx (c t : Nat)
  | cz (c t : Nat)
  | reset (q : Nat)
deriving DecidableEq, Repr

/-- Python exceptions escaping `apply_gate_to_circuit`: `ValueError` with
its message, or the `IndexError` from `params[0]` on an empty list. -/
inductive GateError where
  | valueError (msg : String)
  | indexError
deriving DecidableEq, Repr

def isError {ε α : Type} : Except ε α → Bool
  | .error _ => true
  | .ok _ => false

/-- Python's `str.upper()`: character-wise upper-casing (identity on
characters without an upper-case form, such as `†`). -/
def pyUpper (s : String) : String := ⟨s.data.map Char.toUpper⟩

/-- The dispatch chain of
`app/adapters/qiskit_common.py::apply_gate_to_circuit`, over the local
variables the Python function binds first (`name = gate.name.upper()`
etc.; `origName` is the unmodified `gate.name` used in the unsupported
error message). -/
def gateDispatch (name origName : String) (targets controls : List Nat)
    (params : List ℚ) : Except GateError (List COp) :=
  if name = "I" then .ok [.idg targets]
  else if name = "X" then .ok [.x targets]
  else if name = "Y" then .ok [.y targets]
  else if name = "Z" then .ok [.z targets]
  else if name = "H" then .ok [.h targets]
  else if name = "S" then .ok [.s targets]
  else if name = "SDG" ∨ name = "S†" then .ok [.sdg targets]
  else if name = "T" then .ok [.t targets]
  else if name = "TDG" ∨ name = "T†" then .ok [.tdg targets]
  else if name = "SX" then .ok [.sx targets]
  else if name = "SXDG" ∨ name = "SX†" then .ok [.sxdg targets]
  else if name = "P" then
    let angle := params.headD 0
    .ok (targets.map fun q => .p angle q)
  else if name = "RX" then
    match params with
    | [] => .error .indexError
    | a :: _ => .ok (targets.map fun q => .rx a q)
  else if name = "RY" then
    match params with
    | [] => .error .indexError
    | a :: _ => .ok (targets.map fun q => .ry a q)
  else if name = "RZ" then
    match params with
    | [] => .error .indexError
    | a :: _ => .ok (targets.map fun q => .rz a q)
  else if name = "CX" ∨ name = "CNOT" then
    if controls.length ≠ 1 ∨ targets.length ≠ 1 then
      .error (.valueError "CX requires one control and one target")
    else if controls.any fun c => targets.contains c then
      .error (.valueError "Control and target must be distinct for CX")
    else .ok [.cx (controls.headD 0) (targets.headD 0)]
  else if name = "CZ" then
    if controls.length ≠ 1 ∨ targets.length ≠ 1 then
      .error (.valueError "CZ requires one control and one target")
    else if controls.any fun c => targets.contains c then
      .error (.valueError "Control and target must be distinct for CZ")
    else .ok [.cz (controls.headD 0) (targets.headD 0)]
  else if name = "RESET" then .ok (targets.map fun q => .reset q)
  else if name = "DEPOLARIZING" ∨ name = "AMP_DAMP" ∨ name = "PHASE_DAMP" then .ok []
  else if name = "MEASURE_Z" ∨ name = "MEASURE_X" ∨ name = "MEASURE_Y" then .ok []
  else .error (.valueError ("Unsupported gate: " ++ origName))

/-- `app/adapters/qiskit_common.py::apply_gate_to_circuit`.  Returns the
list of instructions appended to the single-gate `QuantumCircuit`, or the
exception raised; an error means no instruction was recorded (validation
happens before any matrix is built). -/
def apply_gate_to_circuit (g : Gate) : Except GateError (List COp) :=
  gateDispatch (pyUpper g.name) g.name g.targets g.controls g.parameters

/-- Noise channel kinds applied per qubit in
`QiskitSimulationAdapter._apply_noise`. -/
inductive Channel where
  | depol
  | ampDamp
  | phaseDamp
deriving DecidableEq, Repr

/-- Supplied qiskit linear-algebra capabilities used by the adapter.
`evolveD`/`evolveS` model `DensityMatrix.evolve` / `Statevector.evolve`
applied to the single-gate circuit built by `apply_gate_to_circuit`;
`expIMul` models `state * np.exp(1j * phase)`; `krausEvolve` models
`DensityMatrix.evolve(Kraus(...), qargs=[qubit])` for the given channel
and strength; `partialTrace` models `qiskit.quantum_info.partial_trace`
over the given qargs.  All theorems quantify over an arbitrary backend:
this is the repository's own `SimulationPort`/library boundary. -/
structure Backend where
  evolveD : Nat → List COp → List (List CQ) → List (List CQ)
  evolveS : Nat → List COp → List CQ → List CQ
  expIMul : ℚ → List CQ → List CQ
  krausEvolve : Channel → ℚ → Nat → List (List CQ) → List (List CQ)
  partialTrace : List Nat → List (List CQ) → List (List CQ)

/-- `DensityMatrix.from_label("0" * n)`: the `2^n × 2^n` matrix of the
all-zero basis state, with a single 1 in the top-left corner. -/
def dmFromLabelZero (n : Nat) : List (List CQ) :=
  (List.range (2 ^ n)).map fun i =>
    (List.range (2 ^ n)).map fun j =>
      if i = 0 ∧ j = 0 then CQ.one else CQ.zero

/-- `Statevector.from_label("0" * n)`: the basis vector `|0…0⟩`. -/
def svFromLabelZero (n : Nat) : List CQ :=
  (List.range (2 ^ n)).map fun i => if i = 0 then CQ.one else CQ.zero

/-- The fields of `app/domain/models.py::Snapshot` that the engine fills
in (`fidelity_to_target` stays `None` and is omitted; `bloch_radius`,
whose value is the float square root of `x²+y²+z²`, is irrational and
out of scope of every claim, so it is likewise omitted). -/
structure SnapshotE where
  step : Nat
  statevector : Option (List CQ)
  density_matrix : Option (List CQ)
  bloch : BlochV
  probabilities : ℚ × ℚ
  global_phase : Option ℚ
  purity : ℚ
  focus_qubit : Nat
  metadata : List (String × String)
deriving DecidableEq, Repr

/-- Entry `m[i][j]` of a matrix stored as nested lists (the `.data`
indexing of the reduced density matrix). -/
def entry (m : List (List CQ)) (i j : Nat) : CQ :=
  (m.getD i []).getD j CQ.zero

/-- `QiskitSimulationAdapter._build_snapshot`.  `numQubits` is
`density.num_qubits` (the adapter only ever passes matrices of the
circuit's dimension, which qiskit evolution preserves). -/
def clampFocus (numQubits : Nat) (focus_qubit : Int) : Int :=
  max 0 (min focus_qubit ((numQubits : Int) - 1))

/-- The reduced density matrix of `_build_snapshot`: the density itself
for a one-qubit system, otherwise the partial trace over every qubit
except the (clamped) focus qubit. -/
def reducedOf (B : Backend) (numQubits : Nat) (density : List (List CQ))
    (focus_qubit : Int) : List (List CQ) :=
  if numQubits = 1 then density
  else B.partialTrace
    ((List.range numQubits).filter fun idx => idx ≠ (clampFocus numQubits focus_qubit).toNat)
    density

/-- The Bloch components `_build_snapshot` derives from the reduced
matrix: `x = 2·Re(ρ01)`, `y = 2·Im(ρ10)`, `z = Re(ρ00 − ρ11)`; no
clamping is applied. -/
def blochOfRho (reduced : List (List CQ)) : BlochV :=
  { x := 2 * (entry reduced 0 1).re
    y := 2 * (entry reduced 1 0).im
    z := (entry reduced 0 0).re - (entry reduced 1 1).re }

/-- `(float(np.real(rho[0,0])), float(np.real(rho[1,1])))`. -/
def probsOfRho (reduced : List (List CQ)) : ℚ × ℚ :=
  ((entry reduced 0 0).re, (entry reduced 1 1).re)

/-- `float(np.real(np.trace(rho @ rho)))` for the 2×2 reduced matrix. -/
def purityOfRho (reduced : List (List CQ)) : ℚ :=
  let rho := fun i j => entry reduced i j
  ((CQ.add (CQ.mul (rho 0 0) (rho 0 0)) (CQ.mul (rho 0 1) (rho 1 0))).add
    (CQ.add (CQ.mul (rho 1 0) (rho 0 1)) (CQ.mul (rho 1 1) (rho 1 1)))).re

def buildSnapshot (B : Backend) (numQubits : Nat) (step : Nat)
    (density : List (List CQ)) (state : Option (List CQ))
    (focus_qubit : Int) (metadata : List (String × String)) : SnapshotE :=
  let reduced : List (List CQ) := reducedOf B numQubits density focus_qubit
  { step := step
    statevector := state
    density_matrix := some density.flatten
    bloch := blochOfRho reduced
    probabilities := probsOfRho reduced
    global_phase := none
    purity := purityOfRho reduced
    focus_qubit := (clampFocus numQubits focus_qubit).toNat
    metadata := metadata }

/-- `QiskitSimulationAdapter._apply_noise`: per qubit, apply each
configured channel with positive strength, in the order
depolarizing → amplitude damping → phase damping. -/
def applyNoiseD (B : Backend) (numQubits : Nat) (nc : NoiseCfg)
    (density : List (List CQ)) : List (List CQ) :=
  let depol := nc.depolarizing.getD 0
  let amp := nc.amplitude_damping.getD 0
  let phase := nc.phase_damping.getD 0
  (List.range numQubits).foldl
    (fun acc qubit =>
      let acc := if 0 < depol then B.krausEvolve .depol depol qubit acc else acc
      let acc := if 0 < amp then B.krausEvolve .ampDamp amp qubit acc else acc
      if 0 < phase then B.krausEvolve .phaseDamp phase qubit acc else acc)
    density

/-- Metadata attached to a per-gate snapshot in `_simulate_all`. -/
def gateMetadata (g : Gate) : List (String × String) :=
  [("gate", g.name),
   ("targets", String.intercalate "," (g.targets.map toString)),
   ("controls", if g.controls.isEmpty then "" else String.intercalate "," (g.controls.map toString))]

/-- Python's `noise and noise.enabled` condition. -/
def noisyOf : Option NoiseCfg → Bool
  | some nc => nc.enabled
  | none => false

/-- The gate loop of `QiskitSimulationAdapter._simulate_all`. -/
def simulateGo (B : Backend) (numQubits : Nat) (noise : Option NoiseCfg)
    (focus : Int) : List Gate → Nat → List (List CQ) → Option (List CQ) →
    List SnapshotE → Except GateError (List SnapshotE)
  | [], _, _, _, acc => .ok acc
  | g :: gs, idx, density, state, acc =>
    match apply_gate_to_circuit g with
    | .error e => .error e
    | .ok ops =>
      let density := B.evolveD numQubits ops density
      let state := state.map (B.evolveS numQubits ops)
      let density := if noisyOf noise then applyNoiseD B numQubits (noise.getD {}) density else density
      let state := if noisyOf noise then none else state
      let snap := buildSnapshot B numQubits idx density state focus (gateMetadata g)
      simulateGo B numQubits noise focus gs (idx + 1) density state (acc ++ [snap])

/-- The focus normalisation at the top of `_simulate_all`:
`focus = 0 if focus_qubit is None else int(focus_qubit)`, reset to 0
when negative or `>= num_qubits`. -/
def resolveFocus (numQubits : Nat) : Option Int → Int
  | none => 0
  | some f => if f < 0 ∨ (numQubits : Int) ≤ f then 0 else f

/-- `QiskitSimulationAdapter._simulate_all` (also the body of
`simulate`): initial all-zero state, optional global phase on the pure
track only, then one snapshot per gate. -/
def simulateAll (B : Backend) (circuit : Circuit) (noise : Option NoiseCfg)
    (focus_qubit : Option Int) : Except GateError (List SnapshotE) :=
  let numQubits := circuit.qubit_count
  let focus : Int := resolveFocus numQubits focus_qubit
  let density := dmFromLabelZero numQubits
  let state := svFromLabelZero numQubits
  let state := if truthy circuit.global_phase
    then B.expIMul (circuit.global_phase.getD 0) state
    else state
  let snap0 := buildSnapshot B numQubits 0 density (some state) focus [("gate", "INIT")]
  simulateGo B numQubits noise focus circuit.gates 1 density (some state) [snap0]

/-- `SnapshotService._cache_key`: the tuple
`(qubit_count, global_phase, gate_fingerprint, noise_tuple, focus_qubit)`
with per-gate `(name, targets, controls, parameters)` and gate metadata
excluded. -/
structure CacheKey where
  qubit_count : Nat
  global_phase : Option ℚ
  gate_fingerprint : List (String × List Nat × List Nat × List ℚ)
  noise_tuple : Option (ℚ × ℚ × ℚ)
  focus_qubit : Option Int
deriving DecidableEq, Repr

/-- `float(x or 0.0)` on an optional strength. -/
def orZero (o : Option ℚ) : ℚ :=
  match o with
  | none => 0
  | some v => v

def cacheKey (circuit : Circuit) (noise : Option NoiseCfg)
    (focus_qubit : Option Int) : CacheKey :=
  { qubit_count := circuit.qubit_count
    global_phase := circuit.global_phase
    gate_fingerprint := circuit.gates.map fun g =>
      (g.name, g.targets, g.controls, g.parameters)
    noise_tuple := noise.map fun nc =>
      (orZero nc.depolarizing, orZero nc.amplitude_damping, orZero nc.phase_damping)
    focus_qubit := focus_qubit }

/-- Mutable state of a `SnapshotService`: the snapshot cache (a dict,
modelled as an association list), the hit/miss counters, and an
instrumentation counter of simulator invocations (each
`await self._simulator.simulate(...)` call).  The snapshot type `σ` is
abstract because the simulator is an injected port. -/
structure ServiceState (σ : Type) where
  cache : List (CacheKey × List σ)
  hits : Nat
  misses : Nat
  simCalls : Nat
deriving DecidableEq, Repr

def emptyService {σ : Type} : ServiceState σ :=
  { cache := [], hits := 0, misses := 0, simCalls := 0 }

/-- Dictionary lookup `self._snapshot_cache.get(key)`. -/
def lookupCache {σ : Type} (cache : List (CacheKey × List σ)) (k : CacheKey) :
    Option (List σ) :=
  match cache with
  | [] => none
  | (k', v) :: rest => if k' = k then some v else lookupCache rest k

/-- `SnapshotService._fetch_snapshots` over an injected simulator `sim`:
on a hit bump `hits` and return the cached tuple (or its suffix), on a
miss bump `misses`, invoke the simulator once, store and return. -/
def fetchSnapshots {σ : Type} (sim : Circuit → Option NoiseCfg → Option Int → List σ)
    (st : ServiceState σ) (circuit : Circuit) (noise : Option NoiseCfg)
    (focus_qubit : Option Int) (start_step : Option Nat) :
    List σ × ServiceState σ :=
  let key := cacheKey circuit noise focus_qubit
  match lookupCache st.cache key with
  | some cached =>
    ((match start_step with
      | none => cached
      | some s => cached.drop s),
     { st with hits := st.hits + 1 })
  | none =>
    let snaps := sim circuit noise focus_qubit
    ((match start_step with
      | none => snaps
      | some s => snaps.drop s),
     { st with
        misses := st.misses + 1
        simCalls := st.simCalls + 1
        cache := (key, snaps) :: st.cache })

/-- `SnapshotService.generate`. -/
def generate {σ : Type} (sim : Circuit → Option NoiseCfg → Option Int → List σ)
    (st : ServiceState σ) (circuit : Circuit) (noise : Option NoiseCfg)
    (focus_qubit : Option Int) : List σ × ServiceState σ :=
  fetchSnapshots sim st circuit noise focus_qubit none

/-- `max(-1.0, min(1.0, v))`. -/
def clamp1 (v : ℚ) : ℚ := max (-1) (min 1 v)

/-- `SnapshotService._apply_noise`: post-hoc Bloch-vector attenuation
used only by `measure`. -/
def applyNoiseVec (bloch : ℚ × ℚ × ℚ) (noise : NoiseCfg) : ℚ × ℚ × ℚ :=
  let x := bloch.1
  let y := bloch.2.1
  let z := bloch.2.2
  let shrink := max 0 (1 - orZero noise.depolarizing * 2)
  let x := if truthy noise.depolarizing then x * shrink else x
  let y := if truthy noise.depolarizing then y * shrink else y
  let z := if truthy noise.depolarizing then z * shrink else z
  let phase := max 0 (1 - orZero noise.phase_damping)
  let x := if truthy noise.phase_damping then x * phase else x
  let y := if truthy noise.phase_damping then y * phase else y
  let amp := orZero noise.amplitude_damping
  let z := if truthy noise.amplitude_damping then z * (1 - amp) + amp else z
  (clamp1 x, clamp1 y, clamp1 z)

/-- The loop of `SnapshotService._analyze_runs`: `prev` is the element
preceding the remaining list, the accumulators are
`longest_len`, `longest_value`, `current_len`, `switches`. -/
def analyzeRunsGo (prev : String) (longestLen : Nat) (longestValue : String)
    (currentLen : Nat) (switches : Nat) : List String → Nat × String × Nat
  | [] =>
    if longestLen < currentLen then (currentLen, prev, switches)
    else (longestLen, longestValue, switches)
  | c :: rest =>
    if c = prev then analyzeRunsGo c longestLen longestValue (currentLen + 1) switches rest
    else if longestLen < currentLen then analyzeRunsGo c currentLen prev 1 (switches + 1) rest
    else analyzeRunsGo c longestLen longestValue 1 (switches + 1) rest

/-- `SnapshotService._analyze_runs`. -/
def analyzeRuns : List String → Nat × String × Nat
  | [] => (0, "", 0)
  | x :: rest => analyzeRunsGo x 1 x 1 0 rest

/-- `axis_map.get(basis.upper(), axis_map["Z"])`. -/
def axisFor (basis : String) : ℚ × ℚ × ℚ :=
  let b := pyUpper basis
  if b = "Z" then (0, 0, 1)
  else if b = "X" then (1, 0, 0)
  else if b = "Y" then (0, 1, 0)
  else (0, 0, 1)

/-- The fields of `app/domain/models.py::MeasurementResult` computed by
`SnapshotService.measure`.  `mean` and `standard_deviation` (float mean
and square-root population deviation of the ±1 encoding, NaN on zero
shots) are irrational/NaN-valued artefacts no claim mentions and are
omitted; `step` is the final snapshot's step, supplied by the caller
here. -/
structure MeasureOut where
  basis : String
  shots : Nat
  counts_plus : Nat
  counts_minus : Nat
  p_plus : ℚ
  p_minus : ℚ
  overlay_vector : ℚ × ℚ × ℚ
  samples : List String
  longest_run : Nat
  longest_symbol : String
  switches : Nat
deriving DecidableEq, Repr

/-- The measurement core of `SnapshotService.measure` (lines after the
snapshot fetch): noise attenuation, axis projection, sampling, counting
and run analysis.  `draws` is the seeded random source: draw `i` is a
uniform variate in `[0,1)` and `rng.choice` picks `"plus"` iff it falls
below `p_plus`. -/
def measureCore (bloch : Option (ℚ × ℚ × ℚ)) (basis : String) (shots : Nat)
    (noise : Option NoiseCfg) (draws : Nat → ℚ) : MeasureOut :=
  let b := bloch.getD (0, 0, 1)
  let b := match noise with
    | some nc => if nc.enabled then applyNoiseVec b nc else b
    | none => b
  let axis := axisFor basis
  let dot := b.1 * axis.1 + b.2.1 * axis.2.1 + b.2.2 * axis.2.2
  let dot := clamp1 dot
  let pPlus := (1 + dot) / 2
  let pMinus := 1 - pPlus
  let samples := (List.range shots).map fun i =>
    if draws i < pPlus then "plus" else "minus"
  let cPlus := (samples.filter fun s => s = "plus").length
  let cMinus := (samples.filter fun s => s = "minus").length
  let overlay := if cMinus ≤ cPlus then axis else (-axis.1, -axis.2.1, -axis.2.2)
  let runStats := analyzeRuns samples
  { basis := pyUpper basis
    shots := shots
    counts_plus := cPlus
    counts_minus := cMinus
    p_plus := pPlus
    p_minus := pMinus
    overlay_vector := overlay
    samples := samples
    longest_run := runStats.1
    longest_symbol := runStats.2.1
    switches := runStats.2.2 }

/-- Specification-side count of adjacent unequal pairs ("outcome
switches between adjacent samples"). -/
def specSwitches : List String → Nat
  | [] => 0
  | [_] => 0
  | a :: b :: rest => (if a = b then 0 else 1) + specSwitches (b :: rest)

/-- Helper for `specRuns`: extends the current run of `sym` of length
`len` through the remaining list. -/
def specRunsGo (sym : String) (len : Nat) : List String → List (String × Nat)
  | [] => [(sym, len)]
  | c :: rest =>
    if c = sym then specRunsGo sym (len + 1) rest
    else (sym, len) :: specRunsGo c 1 rest

/-- Specification-side decomposition of a sequence into its maximal
same-outcome runs, each with its symbol and length. -/
def specRuns : List String → List (String × Nat)
  | [] => []
  | x :: rest => specRunsGo x 1 rest

/-- Fold keeping the first run whose length strictly exceeds the best so
far — "the longest contiguous run, first-seen ties win". -/
def specFirstMaxGo (bestLen : Nat) (bestSym : String) :
    List (String × Nat) → Nat × String
  | [] => (bestLen, bestSym)
  | (s, n) :: rest =>
    if bestLen < n then specFirstMaxGo n s rest
    else specFirstMaxGo bestLen bestSym rest

/-- Specification-side longest run (length and symbol), first-seen ties
winning; `(0, "")` for an empty run list. -/
def specFirstMax (runs : List (String × Nat)) : Nat × String :=
  specFirstMaxGo 0 "" runs

/-- A concrete backend used to instantiate the backend-quantified
theorems at evaluable inputs: every supplied capability is the identity
on its state argument. -/
def trivialBackend : Backend :=
  { evolveD := fun _ _ d => d
    evolveS := fun _ _ s => s
    expIMul := fun _ s => s
    krausEvolve := fun _ _ _ d => d
    partialTrace := fun _ d => d }

/-- The fixed gate-name vocabulary recognised by
`apply_gate_to_circuit` (after upper-casing). -/
def vocabNames : List String :=
  ["I", "X", "Y", "Z", "H", "S", "SDG", "S†", "T", "TDG", "T†", "SX", "SXDG",
   "SX†", "P", "RX", "RY", "RZ", "CX", "CNOT", "CZ", "RESET", "DEPOLARIZING",
   "AMP_DAMP", "PHASE_DAMP", "MEASURE_Z", "MEASURE_X", "MEASURE_Y"]

/-- The invalidity conditions claim C4 enumerates: name outside the
vocabulary, or a CX/CZ gate with wrong target/control arity or
overlapping control and target sets. -/
def claimInvalid (g : Gate) : Prop :=
  pyUpper g.name ∉ vocabNames ∨
  ((pyUpper g.name = "CX" ∨ pyUpper g.name = "CNOT" ∨ pyUpper g.name = "CZ") ∧
    (g.targets.length ≠ 1 ∨ g.controls.length ≠ 1 ∨ ∃ q ∈ g.controls, q ∈ g.targets))

/-- A rotation gate carrying no angle parameter (`params[0]` raises
`IndexError` in the code). -/
def rotationMissingParam (g : Gate) : Prop :=
  (pyUpper g.name = "RX" ∨ pyUpper g.name = "RY" ∨ pyUpper g.name = "RZ") ∧
  g.parameters = []

/-! ## Theorems -/

/-- Structural facts about the simulator gate loop: each iteration
appends exactly one snapshot whose step is the running index, whose
focus qubit is the clamped focus, whose density matrix is present, and
which carries no state vector when noise is enabled. -/
lemma simulateGo_spec (B : Backend) (n : Nat) (noise : Option NoiseCfg) (focus : Int) :
    ∀ (gs : List Gate) (idx : Nat) (d : List (List CQ)) (st : Option (List CQ))
      (acc out : List SnapshotE),
      simulateGo B n noise focus gs idx d st acc = .ok out →
      out.length = acc.length + gs.length ∧
      out.map (fun s => s.step) = acc.map (fun s => s.step) ++ List.range' idx gs.length ∧
      ∀ s ∈ out, s ∈ acc ∨
        (s.focus_qubit = (clampFocus n focus).toNat ∧
         s.density_matrix.isSome = true ∧
         (noisyOf noise = true → s.statevector = none) ∧
         idx ≤ s.step) := by
  intro gs
  induction gs with
  | nil =>
    intro idx d st acc out h
    simp only [simulateGo] at h
    cases h
    exact ⟨by simp, by simp, fun s hs => .inl hs⟩
  | cons g gs ih =>
    intro idx d st acc out h
    simp only [simulateGo] at h
    cases hg : apply_gate_to_circuit g with
    | error e => rw [hg] at h; exact absurd h (by simp)
    | ok ops =>
      rw [hg] at h
      simp only [] at h
      obtain ⟨hlen, hmap, hmem⟩ := ih (idx + 1) _ _ _ out h
      refine ⟨?_, ?_, ?_⟩
      · simp at hlen ⊢; omega
      · rw [hmap]
        simp [List.range'_succ, buildSnapshot]
      · intro s hs
        rcases hmem s hs with hacc | hrest
        · rcases List.mem_append.mp hacc with h1 | h2
          · exact .inl h1
          · right
            have hs2 : s = buildSnapshot B n idx
                (if noisyOf noise then
                  applyNoiseD B n (noise.getD {}) (B.evolveD n ops d)
                 else B.evolveD n ops d)
                (if noisyOf noise then none else st.map (B.evolveS n ops))
                focus (gateMetadata g) := by simpa using h2
            subst hs2
            refine ⟨rfl, rfl, ?_, le_refl _⟩
            intro hn
            simp [buildSnapshot, hn]
        · rcases hrest with ⟨h1, h2, h3, h4⟩
          exact .inr ⟨h1, h2, h3, by omega⟩

theorem gateDispatch_errors (u orig : String) (targets controls : List Nat)
    (params : List ℚ) :
    isError (gateDispatch u orig targets controls params) = true ↔
      (u ∉ vocabNames ∨
       ((u = "CX" ∨ u = "CNOT" ∨ u = "CZ") ∧
         (targets.length ≠ 1 ∨ controls.length ≠ 1 ∨ ∃ q ∈ controls, q ∈ targets)) ∨
       ((u = "RX" ∨ u = "RY" ∨ u = "RZ") ∧ params = [])) := by
  have hmem : u ∈ vocabNames ↔
      (u = "I" ∨ u = "X" ∨ u = "Y" ∨ u = "Z" ∨ u = "H" ∨ u = "S" ∨
       u = "SDG" ∨ u = "S†" ∨ u = "T" ∨ u = "TDG" ∨ u = "T†" ∨ u = "SX" ∨
       u = "SXDG" ∨ u = "SX†" ∨ u = "P" ∨ u = "RX" ∨ u = "RY" ∨ u = "RZ" ∨
       u = "CX" ∨ u = "CNOT" ∨ u = "CZ" ∨ u = "RESET" ∨ u = "DEPOLARIZING" ∨
       u = "AMP_DAMP" ∨ u = "PHASE_DAMP" ∨ u = "MEASURE_Z" ∨ u = "MEASURE_X" ∨
       u = "MEASURE_Y") := by
    simp [vocabNames]
  unfold gateDispatch
  by_cases h1 : u = "I"
  · rw [if_pos h1]
    subst h1
    simp [isError, vocabNames]
  rw [if_neg h1]
  by_cases h2 : u = "X"
  · rw [if_pos h2]
    subst h2
    simp [isError, vocabNames]
  rw [if_neg h2]
  by_cases h3 : u = "Y"
  · rw [if_pos h3]
    subst h3
    simp [isError, vocabNames]
  rw [if_neg h3]
  by_cases h4 : u = "Z"
  · rw [if_pos h4]
    subst h4
    simp [isError, vocabNames]
  rw [if_neg h4]
  by_cases h5 : u = "H"
  · rw [if_pos h5]
    subst h5
    simp [isError, vocabNames]
  rw [if_neg h5]
  by_cases h6 : u = "S"
  · rw [if_pos h6]
    subst h6
    simp [isError, vocabNames]
  rw [if_neg h6]
  by_cases h7 : u = "SDG" ∨ u = "S†"
  · rw [if_pos h7]
    rcases h7 with h7 | h7 <;> subst h7 <;> simp [isError, vocabNames]
  rw [if_neg h7]
  by_cases h8 : u = "T"
  · rw [if_pos h8]
    subst h8
    simp [isError, vocabNames]
  rw [if_neg h8]
  by_cases h9 : u = "TDG" ∨ u = "T†"
  · rw [if_pos h9]
    rcases h9 with h9 | h9 <;> subst h9 <;> simp [isError, vocabNames]
  rw [if_neg h9]
  by_cases h10 : u = "SX"
  · rw [if_pos h10]
    subst h10
    simp [isError, vocabNames]
  rw [if_neg h10]
  by_cases h11 : u = "SXDG" ∨ u = "SX†"
  · rw [if_pos h11]
    rcases h11 with h11 | h11 <;> subst h11 <;> simp [isError, vocabNames]
  rw [if_neg h11]
  by_cases h12 : u = "P"
  · rw [if_pos h12]
    subst h12
    simp [isError, vocabNames]
  rw [if_neg h12]
  by_cases h13 : u = "RX"
  · rw [if_pos h13]
    subst h13
    rcases params with - | ⟨a, ps⟩ <;> simp [isError, vocabNames]
  rw [if_neg h13]
  by_cases h14 : u = "RY"
  · rw [if_pos h14]
    subst h14
    rcases params with - | ⟨a, ps⟩ <;> simp [isError, vocabNames]
  rw [if_neg h14]
  by_cases h15 : u = "RZ"
  · rw [if_pos h15]
    subst h15
    rcases params with - | ⟨a, ps⟩ <;> simp [isError, vocabNames]
  rw [if_neg h15]
  by_cases h16 : u = "CX" ∨ u = "CNOT"
  · rw [if_pos h16]
    by_cases hah16 : controls.length ≠ 1 ∨ targets.length ≠ 1
    · rw [if_pos hah16]
      simp only [isError, eq_self_iff_true, true_iff]
      exact Or.inr (Or.inl ⟨Or.imp id Or.inl h16,
        hah16.elim (fun h => Or.inr (Or.inl h)) Or.inl⟩)
    · rw [if_neg hah16]
      by_cases hbh16 : (controls.any fun c => targets.contains c) = true
      · rw [if_pos hbh16]
        have hover : ∃ q, q ∈ controls ∧ q ∈ targets := by
          simpa [List.any_eq_true, List.contains, List.elem_iff] using hbh16
        obtain ⟨q, hq1, hq2⟩ := hover
        simp only [isError, eq_self_iff_true, true_iff]
        exact Or.inr (Or.inl ⟨Or.imp id Or.inl h16, Or.inr (Or.inr ⟨q, hq1, hq2⟩)⟩)
      · rw [if_neg hbh16]
        have hnover : ¬ ∃ q, q ∈ controls ∧ q ∈ targets := by
          simpa [List.any_eq_true, List.contains, List.elem_iff] using hbh16
        push_neg at hah16
        rcases h16 with h16 | h16 <;> subst h16 <;>
          refine ⟨fun hcontra => absurd hcontra (by simp [isError]),
            fun hr => absurd hr ?_⟩ <;>
        · rintro (hvoc | ⟨-, (harg | harg | ⟨q, hq1, hq2⟩)⟩ | ⟨hrot, -⟩)
          · exact hvoc (by decide)
          · exact harg hah16.2
          · exact harg hah16.1
          · exact hnover ⟨q, hq1, hq2⟩
          · rcases hrot with hrot | hrot | hrot <;> exact absurd hrot (by decide)
  rw [if_neg h16]
  by_cases h17 : u = "CZ"
  · rw [if_pos h17]
    by_cases hah17 : controls.length ≠ 1 ∨ targets.length ≠ 1
    · rw [if_pos hah17]
      simp only [isError, eq_self_iff_true, true_iff]
      exact Or.inr (Or.inl ⟨Or.inr (Or.inr h17),
        hah17.elim (fun h => Or.inr (Or.inl h)) Or.inl⟩)
    · rw [if_neg hah17]
      by_cases hbh17 : (controls.any fun c => targets.contains c) = true
      · rw [if_pos hbh17]
        have hover : ∃ q, q ∈ controls ∧ q ∈ targets := by
          simpa [List.any_eq_true, List.contains, List.elem_iff] using hbh17
        obtain ⟨q, hq1, hq2⟩ := hover
        simp only [isError, eq_self_iff_true, true_iff]
        exact Or.inr (Or.inl ⟨Or.inr (Or.inr h17), Or.inr (Or.inr ⟨q, hq1, hq2⟩)⟩)
      · rw [if_neg hbh17]
        have hnover : ¬ ∃ q, q ∈ controls ∧ q ∈ targets := by
          simpa [List.any_eq_true, List.contains, List.elem_iff] using hbh17
        push_neg at hah17
        subst h17
        refine ⟨fun hcontra => absurd hcontra (by simp [isError]),
          fun hr => absurd hr ?_⟩
        rintro (hvoc | ⟨-, (harg | harg | ⟨q, hq1, hq2⟩)⟩ | ⟨hrot, -⟩)
        · exact hvoc (by decide)
        · exact harg hah17.2
        · exact harg hah17.1
        · exact hnover ⟨q, hq1, hq2⟩
        · rcases hrot with hrot | hrot | hrot <;> exact absurd hrot (by decide)
  rw [if_neg h17]
  by_cases h18 : u = "RESET"
  · rw [if_pos h18]
    subst h18
    simp [isError, vocabNames]
  rw [if_neg h18]
  by_cases h19 : u = "DEPOLARIZING" ∨ u = "AMP_DAMP" ∨ u = "PHASE_DAMP"
  · rw [if_pos h19]
    rcases h19 with h19 | h19 | h19 <;> subst h19 <;> simp [isError, vocabNames]
  rw [if_neg h19]
  by_cases h20 : u = "MEASURE_Z" ∨ u = "MEASURE_X" ∨ u = "MEASURE_Y"
  · rw [if_pos h20]
    rcases h20 with h20 | h20 | h20 <;> subst h20 <;> simp [isError, vocabNames]
  rw [if_neg h20]
  simp only [isError, eq_self_iff_true, true_iff]
  refine Or.inl fun hvoc => ?_
  rw [hmem] at hvoc
  rcases hvoc with h | h | h | h | h | h | h | h | h | h | h | h | h | h | h | h | h | h | h | h | h | h | h | h | h | h | h | h
  exacts [h1 h, h2 h, h3 h, h4 h, h5 h, h6 h, h7 (Or.inl h), h7 (Or.inr h),
    h8 h, h9 (Or.inl h), h9 (Or.inr h), h10 h, h11 (Or.inl h), h11 (Or.inr h),
    h12 h, h13 h, h14 h, h15 h, h16 (Or.inl h), h16 (Or.inr h), h17 h, h18 h,
    h19 (Or.inl h), h19 (Or.inr (Or.inl h)), h19 (Or.inr (Or.inr h)),
    h20 (Or.inl h), h20 (Or.inr (Or.inl h)), h20 (Or.inr (Or.inr h))]

theorem gateDispatch_unsupported (u orig : String) (targets controls : List Nat)
    (params : List ℚ) (h : u ∉ vocabNames) :
    gateDispatch u orig targets controls params
      = .error (.valueError ("Unsupported gate: " ++ orig)) := by
  have hmem : u ∈ vocabNames ↔
      (u = "I" ∨ u = "X" ∨ u = "Y" ∨ u = "Z" ∨ u = "H" ∨ u = "S" ∨
       u = "SDG" ∨ u = "S†" ∨ u = "T" ∨ u = "TDG" ∨ u = "T†" ∨ u = "SX" ∨
       u = "SXDG" ∨ u = "SX†" ∨ u = "P" ∨ u = "RX" ∨ u = "RY" ∨ u = "RZ" ∨
       u = "CX" ∨ u = "CNOT" ∨ u = "CZ" ∨ u = "RESET" ∨ u = "DEPOLARIZING" ∨
       u = "AMP_DAMP" ∨ u = "PHASE_DAMP" ∨ u = "MEASURE_Z" ∨ u = "MEASURE_X" ∨
       u = "MEASURE_Y") := by
    simp [vocabNames]
  rw [hmem] at h
  push_neg at h
  obtain ⟨h1, h2, h3, h4, h5, h6, h7a, h7b, h8, h9a, h9b, h10, h11a, h11b, h12,
    h13, h14, h15, h16a, h16b, h17, h18, h19a, h19b, h19c, h20a, h20b, h20c⟩ := h
  unfold gateDispatch
  rw [if_neg h1, if_neg h2, if_neg h3, if_neg h4, if_neg h5, if_neg h6,
    if_neg (not_or.mpr ⟨h7a, h7b⟩), if_neg h8, if_neg (not_or.mpr ⟨h9a, h9b⟩),
    if_neg h10, if_neg (not_or.mpr ⟨h11a, h11b⟩), if_neg h12, if_neg h13,
    if_neg h14, if_neg h15, if_neg (not_or.mpr ⟨h16a, h16b⟩), if_neg h17,
    if_neg h18, if_neg (not_or.mpr ⟨h19a, not_or.mpr ⟨h19b, h19c⟩⟩),
    if_neg (not_or.mpr ⟨h20a, not_or.mpr ⟨h20b, h20c⟩⟩)]

/-- C4 (counterexample): `RX` is a vocabulary gate with one target, no
controls and no control/target overlap — yet with an empty parameter
list the code raises `IndexError` from `params[0]`, so gate application
does not raise "exactly when the gate is invalid" in the claim's sense. -/
theorem c4_gate_validation_counterexample :
    apply_gate_to_circuit { name := "RX", targets := [0] } = .error .indexError ∧
    ¬ claimInvalid { name := "RX", targets := [0] } := by
  refine ⟨rfl, fun hinv => ?_⟩
  unfold claimInvalid at hinv
  revert hinv
  decide

/-- C4 (amended): `apply_gate_to_circuit` errors exactly on the claim's
invalid gates — unknown name (with an error naming the offending gate),
or CX/CZ with wrong control/target arity or overlapping control and
target sets — plus one further case the claim omits: a rotation gate
(RX/RY/RZ) whose parameter list is empty raises an index error.  An
error always means no circuit instruction was emitted, so validation
failures occur before any matrix multiplication. -/
theorem c4_gate_validation (g : Gate) :
    (isError (apply_gate_to_circuit g) = true ↔
      (claimInvalid g ∨ rotationMissingParam g)) ∧
    (pyUpper g.name ∉ vocabNames →
      apply_gate_to_circuit g = .error (.valueError ("Unsupported gate: " ++ g.name))) := by
  constructor
  · rw [show apply_gate_to_circuit g
        = gateDispatch (pyUpper g.name) g.name g.targets g.controls g.parameters from rfl,
      gateDispatch_errors]
    unfold claimInvalid rotationMissingParam
    constructor
    · rintro (h | h | h)
      · exact Or.inl (Or.inl h)
      · exact Or.inl (Or.inr h)
      · exact Or.inr h
    · rintro ((h | h) | h)
      · exact Or.inl h
      · exact Or.inr (Or.inl h)
      · exact Or.inr (Or.inr h)
  · intro h
    exact gateDispatch_unsupported _ _ _ _ _ h


/-- Composing the out-of-range reset in `_simulate_all` with the clamp
in `_build_snapshot`: any request outside `[0, qubit_count)` ends up at
focus 0. -/
lemma clampFocus_resolve (n : Nat) (f : Option Int) :
    (clampFocus n (resolveFocus n f)).toNat
    = (match f with
      | none => 0
      | some v => if 0 ≤ v ∧ v < (n : Int) then v.toNat else 0) := by
  cases f with
  | none => simp only [clampFocus, resolveFocus]; omega
  | some v =>
    simp only [clampFocus, resolveFocus]
    by_cases hv : v < 0 ∨ (n : Int) ≤ v
    · rw [if_pos hv, if_neg (by omega : ¬ (0 ≤ v ∧ v < (n : Int)))]
      omega
    · rw [if_neg hv, if_pos (by omega : 0 ≤ v ∧ v < (n : Int))]
      omega

/-- C3 (counterexample): on a 2-qubit circuit, requesting focus qubit 2
(≥ qubit_count) yields snapshots whose focus qubit is 0, not
`qubit_count − 1 = 1` as the claim states. -/
theorem c3_focus_counterexample :
    (simulateAll trivialBackend { qubit_count := 2, gates := [], global_phase := none }
        none (some 2)).map (List.map fun s => s.focus_qubit) = .ok [0] ∧
    (0 : Nat) ≠ 2 - 1 := by
  exact ⟨rfl, by decide⟩

/-- C3 (amended): the focus qubit used for reduction is the requested
one when it lies in `[0, qubit_count)`, and 0 otherwise — both a
negative request and a request ≥ qubit_count map to 0 (not to
`qubit_count − 1`).  When `qubit_count` is 1 no partial trace is taken:
the snapshot is independent of the backend's partial-trace capability. -/
theorem c3_focus_resolution :
    (∀ (B : Backend) (c : Circuit) (noise : Option NoiseCfg) (f : Option Int)
       (snaps : List SnapshotE),
       simulateAll B c noise f = .ok snaps →
       ∀ s ∈ snaps, s.focus_qubit =
         (match f with
          | none => 0
          | some v => if 0 ≤ v ∧ v < (c.qubit_count : Int) then v.toNat else 0)) ∧
    (∀ (B : Backend) (pt : List Nat → List (List CQ) → List (List CQ))
       (step : Nat) (d : List (List CQ)) (st : Option (List CQ)) (f : Int)
       (m : List (String × String)),
       buildSnapshot { B with partialTrace := pt } 1 step d st f m =
       buildSnapshot B 1 step d st f m) := by
  constructor
  · intro B c noise f snaps h s hs
    rw [← clampFocus_resolve c.qubit_count f]
    simp only [simulateAll] at h
    obtain ⟨-, -, hmem⟩ := simulateGo_spec B c.qubit_count noise _ c.gates 1 _ _ _ snaps h
    rcases hmem s hs with hacc | hrest
    · rw [List.mem_singleton] at hacc
      rw [hacc]
      rfl
    · exact hrest.1
  · intro B pt step d st f m
    rfl

/-- Witness for `c3_focus_resolution` on a one-qubit circuit with focus
request 0. -/
theorem c3_focus_resolution_witness :
    simulateAll trivialBackend { qubit_count := 1, gates := [], global_phase := none }
      none (some 0)
      = .ok [buildSnapshot trivialBackend 1 0 (dmFromLabelZero 1)
              (some (svFromLabelZero 1)) 0 [("gate", "INIT")]] ∧
    (buildSnapshot trivialBackend 1 0 (dmFromLabelZero 1)
      (some (svFromLabelZero 1)) 0 [("gate", "INIT")]).focus_qubit = 0 := by
  constructor
  · rfl
  · have h := c3_focus_resolution.1 trivialBackend
      { qubit_count := 1, gates := [], global_phase := none } none (some 0) _ rfl
      (buildSnapshot trivialBackend 1 0 (dmFromLabelZero 1)
        (some (svFromLabelZero 1)) 0 [("gate", "INIT")]) (List.mem_singleton.mpr rfl)
    simpa using h

/-- C2 (counterexample): the code applies no clamping to Bloch
components.  Feeding `_build_snapshot` the Hermitian, trace-one matrix
`[[1/2, 1], [1, 1/2]]` (accepted unvalidated by the code) yields a
snapshot whose `BlochVector` has `x = 2`, outside `[-1, 1]` — so
components are not "clamped to [-1,1] at construction". -/
theorem c2_no_clamping_counterexample :
    (buildSnapshot trivialBackend 1 0 [[⟨1/2, 0⟩, ⟨1, 0⟩], [⟨1, 0⟩, ⟨1/2, 0⟩]]
      none 0 []).bloch.x = 2 ∧
    ¬ (-1 ≤ (buildSnapshot trivialBackend 1 0 [[⟨1/2, 0⟩, ⟨1, 0⟩], [⟨1, 0⟩, ⟨1/2, 0⟩]]
      none 0 []).bloch.x ∧
       (buildSnapshot trivialBackend 1 0 [[⟨1/2, 0⟩, ⟨1, 0⟩], [⟨1, 0⟩, ⟨1/2, 0⟩]]
      none 0 []).bloch.x ≤ 1) := by
  have hx : (buildSnapshot trivialBackend 1 0 [[⟨1/2, 0⟩, ⟨1, 0⟩], [⟨1, 0⟩, ⟨1/2, 0⟩]]
      none 0 []).bloch.x = 2 * ((⟨1, 0⟩ : CQ)).re := rfl
  rw [hx]
  norm_num

/-- C2 (amended): `BlochVector` construction applies no clamping; the
snapshot's Bloch components are the raw values `x = 2·Re(ρ01)`,
`y = 2·Im(ρ10)`, `z = Re(ρ00 − ρ11)` of the reduced matrix.  Whenever
that reduced matrix is a genuine density matrix (Hermitian, positive
semidefinite, trace one), each component nevertheless lies in `[-1,1]`
in exact arithmetic. -/
theorem c2_bloch_components_in_range
    (B : Backend) (numQubits step : Nat) (density : List (List CQ))
    (state : Option (List CQ)) (focus_qubit : Int)
    (metadata : List (String × String)) (a b c d : CQ)
    (hred : reducedOf B numQubits density focus_qubit = [[a, b], [c, d]])
    (haim : a.im = 0) (hdim : d.im = 0)
    (htrace : a.re + d.re = 1)
    (ha0 : 0 ≤ a.re) (hd0 : 0 ≤ d.re)
    (hherm : c = CQ.conj b)
    (hdet : b.re ^ 2 + b.im ^ 2 ≤ a.re * d.re) :
    (buildSnapshot B numQubits step density state focus_qubit metadata).bloch.x = 2 * b.re ∧
    (buildSnapshot B numQubits step density state focus_qubit metadata).bloch.y = 2 * c.im ∧
    (buildSnapshot B numQubits step density state focus_qubit metadata).bloch.z = a.re - d.re ∧
    (-1 ≤ 2 * b.re ∧ 2 * b.re ≤ 1) ∧
    (-1 ≤ 2 * c.im ∧ 2 * c.im ≤ 1) ∧
    (-1 ≤ a.re - d.re ∧ a.re - d.re ≤ 1) := by
  have hbl : (buildSnapshot B numQubits step density state focus_qubit metadata).bloch
      = blochOfRho [[a, b], [c, d]] := by
    show blochOfRho (reducedOf B numQubits density focus_qubit) = _
    rw [hred]
  have hx : (buildSnapshot B numQubits step density state focus_qubit metadata).bloch.x
      = 2 * b.re := by rw [hbl]; rfl
  have hy : (buildSnapshot B numQubits step density state focus_qubit metadata).bloch.y
      = 2 * c.im := by rw [hbl]; rfl
  have hz : (buildSnapshot B numQubits step density state focus_qubit metadata).bloch.z
      = a.re - d.re := by rw [hbl]; rfl
  have hcim : c.im = -b.im := by rw [hherm]; rfl
  refine ⟨hx, hy, hz, ⟨?_, ?_⟩, ⟨?_, ?_⟩, ⟨?_, ?_⟩⟩
  · nlinarith [sq_nonneg (a.re - d.re), sq_nonneg (2 * b.re + 1), sq_nonneg b.im]
  · nlinarith [sq_nonneg (a.re - d.re), sq_nonneg (2 * b.re - 1), sq_nonneg b.im]
  · rw [hcim]; nlinarith [sq_nonneg (a.re - d.re), sq_nonneg (2 * b.im - 1), sq_nonneg b.re]
  · rw [hcim]; nlinarith [sq_nonneg (a.re - d.re), sq_nonneg (2 * b.im + 1), sq_nonneg b.re]
  · linarith
  · linarith

/-- Witness for `c2_bloch_components_in_range` at the pure state `|0⟩`
(`ρ = [[1,0],[0,0]]`, one qubit, trivial backend). -/
theorem c2_bloch_components_in_range_witness :
    (buildSnapshot trivialBackend 1 0 [[⟨1, 0⟩, ⟨0, 0⟩], [⟨0, 0⟩, ⟨0, 0⟩]]
      none 0 []).bloch.z = (1 : ℚ) - 0 ∧
    (-1 ≤ (2 : ℚ) * 0 ∧ (2 : ℚ) * 0 ≤ 1) := by
  have h := c2_bloch_components_in_range trivialBackend 1 0
    [[⟨1, 0⟩, ⟨0, 0⟩], [⟨0, 0⟩, ⟨0, 0⟩]] none 0 [] ⟨1, 0⟩ ⟨0, 0⟩ ⟨0, 0⟩ ⟨0, 0⟩
    rfl rfl rfl (by norm_num) (by norm_num) (by norm_num)
    (by simp [CQ.conj]) (by norm_num)
  exact ⟨h.2.2.1, h.2.2.2.1⟩

/-- A falsy optional strength (absent or 0.0) contributes 0. -/
lemma truthy_false_orZero (o : Option ℚ) (h : truthy o = false) : orZero o = 0 := by
  cases o with
  | none => rfl
  | some v =>
    simp only [truthy, bne_iff_ne, ne_eq, decide_not, Bool.not_eq_false, decide_eq_true_eq] at h
    simpa [orZero] using h

/-- `max(-1, min(1, v)) = v` on `[-1, 1]`. -/
lemma clamp1_eq_self (v : ℚ) (h1 : -1 ≤ v) (h2 : v ≤ 1) : clamp1 v = v := by
  unfold clamp1
  rw [min_eq_right h2, max_eq_right h1]

/-- The depolarizing guard of `_apply_noise`: skipping on a falsy
strength equals multiplying by the (then unit) shrink factor. -/
lemma ite_truthy_shrink (o : Option ℚ) (v : ℚ) :
    (if truthy o then v * max 0 (1 - orZero o * 2) else v)
      = v * max 0 (1 - orZero o * 2) := by
  by_cases h : truthy o = true
  · rw [if_pos h]
  · rw [if_neg (by simp [h]), truthy_false_orZero o (by simpa using h)]
    norm_num

/-- The phase-damping guard of `_apply_noise`. -/
lemma ite_truthy_phase (o : Option ℚ) (v : ℚ) :
    (if truthy o then v * max 0 (1 - orZero o) else v)
      = v * max 0 (1 - orZero o) := by
  by_cases h : truthy o = true
  · rw [if_pos h]
  · rw [if_neg (by simp [h]), truthy_false_orZero o (by simpa using h)]
    norm_num

/-- The amplitude-damping guard of `_apply_noise`. -/
lemma ite_truthy_amp (o : Option ℚ) (v : ℚ) :
    (if truthy o then v * (1 - orZero o) + orZero o else v)
      = v * (1 - orZero o) + orZero o := by
  by_cases h : truthy o = true
  · rw [if_pos h]
  · rw [if_neg (by simp [h]), truthy_false_orZero o (by simpa using h)]
    norm_num

/-- C9: on any Bloch vector with components in `[-1,1]` and strengths in
`[0,1]`, `_apply_noise` is exactly the composite the claim describes:
depolarizing scales all three components by `max(0, 1 − 2p)`, phase
damping then scales only x and y by `max(0, 1 − λ)` leaving z untouched
by that channel, and amplitude damping finally replaces z by
`z·(1−γ) + γ`; the trailing clamp is the identity on these inputs. -/
theorem c9_measure_noise_attenuation
    (x y z : ℚ) (nc : NoiseCfg)
    (hx1 : -1 ≤ x) (hx2 : x ≤ 1) (hy1 : -1 ≤ y) (hy2 : y ≤ 1)
    (hz1 : -1 ≤ z) (hz2 : z ≤ 1)
    (hp1 : 0 ≤ orZero nc.depolarizing) (hp2 : orZero nc.depolarizing ≤ 1)
    (hl1 : 0 ≤ orZero nc.phase_damping) (hl2 : orZero nc.phase_damping ≤ 1)
    (hg1 : 0 ≤ orZero nc.amplitude_damping) (hg2 : orZero nc.amplitude_damping ≤ 1) :
    applyNoiseVec (x, y, z) nc =
      (x * max 0 (1 - 2 * orZero nc.depolarizing) * max 0 (1 - orZero nc.phase_damping),
       y * max 0 (1 - 2 * orZero nc.depolarizing) * max 0 (1 - orZero nc.phase_damping),
       z * max 0 (1 - 2 * orZero nc.depolarizing) * (1 - orZero nc.amplitude_damping)
         + orZero nc.amplitude_damping) := by
  have htwo : (1 : ℚ) - orZero nc.depolarizing * 2 = 1 - 2 * orZero nc.depolarizing := by
    ring
  have key : applyNoiseVec (x, y, z) nc =
      (clamp1 (x * max 0 (1 - 2 * orZero nc.depolarizing) * max 0 (1 - orZero nc.phase_damping)),
       clamp1 (y * max 0 (1 - 2 * orZero nc.depolarizing) * max 0 (1 - orZero nc.phase_damping)),
       clamp1 (z * max 0 (1 - 2 * orZero nc.depolarizing) * (1 - orZero nc.amplitude_damping)
         + orZero nc.amplitude_damping)) := by
    unfold applyNoiseVec
    dsimp only
    rw [ite_truthy_shrink nc.depolarizing x, ite_truthy_shrink nc.depolarizing y,
      ite_truthy_shrink nc.depolarizing z,
      ite_truthy_phase nc.phase_damping (x * max 0 (1 - orZero nc.depolarizing * 2)),
      ite_truthy_phase nc.phase_damping (y * max 0 (1 - orZero nc.depolarizing * 2)),
      ite_truthy_amp nc.amplitude_damping (z * max 0 (1 - orZero nc.depolarizing * 2)),
      htwo]
  rw [key]
  set p := orZero nc.depolarizing
  set l := orZero nc.phase_damping
  set a := orZero nc.amplitude_damping
  have hs1 : 0 ≤ max 0 (1 - 2 * p) := le_max_left 0 _
  have hs2 : max 0 (1 - 2 * p) ≤ 1 := by
    rw [max_le_iff]; constructor <;> linarith
  have hph1 : 0 ≤ max 0 (1 - l) := le_max_left 0 _
  have hph2 : max 0 (1 - l) ≤ 1 := by
    rw [max_le_iff]; constructor <;> linarith
  have hsph1 : 0 ≤ max 0 (1 - 2 * p) * max 0 (1 - l) := mul_nonneg hs1 hph1
  have hsph2 : max 0 (1 - 2 * p) * max 0 (1 - l) ≤ 1 := by nlinarith
  have hxb1 : -1 ≤ x * max 0 (1 - 2 * p) * max 0 (1 - l) := by nlinarith
  have hxb2 : x * max 0 (1 - 2 * p) * max 0 (1 - l) ≤ 1 := by nlinarith
  have hyb1 : -1 ≤ y * max 0 (1 - 2 * p) * max 0 (1 - l) := by nlinarith
  have hyb2 : y * max 0 (1 - 2 * p) * max 0 (1 - l) ≤ 1 := by nlinarith
  have hw1 : -1 ≤ z * max 0 (1 - 2 * p) := by nlinarith
  have hw2 : z * max 0 (1 - 2 * p) ≤ 1 := by nlinarith
  have hzb1 : -1 ≤ z * max 0 (1 - 2 * p) * (1 - a) + a := by nlinarith
  have hzb2 : z * max 0 (1 - 2 * p) * (1 - a) + a ≤ 1 := by nlinarith
  rw [clamp1_eq_self _ hxb1 hxb2, clamp1_eq_self _ hyb1 hyb2, clamp1_eq_self _ hzb1 hzb2]

/-- Witness for `c9_measure_noise_attenuation` at `(1/2, -1/2, 1/2)`
with depolarizing 1/4, phase damping 1/3, amplitude damping 1/5. -/
theorem c9_measure_noise_attenuation_witness :
    applyNoiseVec (1/2, -(1/2), 1/2)
        { amplitude_damping := some (1/5), phase_damping := some (1/3),
          depolarizing := some (1/4) }
      = (1/6, -(1/6), 2/5) := by
  have h := c9_measure_noise_attenuation (1/2) (-(1/2)) (1/2)
    { amplitude_damping := some (1/5), phase_damping := some (1/3),
      depolarizing := some (1/4) }
    (by norm_num) (by norm_num) (by norm_num) (by norm_num) (by norm_num) (by norm_num)
    (by norm_num [orZero]) (by norm_num [orZero]) (by norm_num [orZero])
    (by norm_num [orZero]) (by norm_num [orZero]) (by norm_num [orZero])
  rw [h]
  norm_num [orZero]

/-- C10: `measure` accepts any basis string without raising (the
embedding of its basis handling is a total function): a basis whose
upper-cased form is not X, Y or Z falls back to the Z axis `(0,0,1)` via
`axis_map.get`, while the returned result reports the upper-cased input
string as its `basis`, not the axis actually used. -/
theorem c10_basis_fallback (basis : String)
    (h : pyUpper basis ∉ (["X", "Y", "Z"] : List String)) :
    axisFor basis = ((0 : ℚ), (0 : ℚ), (1 : ℚ)) ∧
    ∀ (bloch : Option (ℚ × ℚ × ℚ)) (shots : Nat) (noise : Option NoiseCfg)
      (draws : Nat → ℚ),
      (measureCore bloch basis shots noise draws).basis = pyUpper basis := by
  constructor
  · simp only [List.mem_cons, List.not_mem_nil, or_false, not_or] at h
    obtain ⟨hX, hY, hZ⟩ := h
    unfold axisFor
    rw [if_neg hZ, if_neg hX, if_neg hY]
  · intro bloch shots noise draws
    rfl

/-- Witness for `c10_basis_fallback` at the unrecognized basis
`"bell"`. -/
theorem c10_basis_fallback_witness :
    axisFor "bell" = ((0 : ℚ), (0 : ℚ), (1 : ℚ)) ∧
    (measureCore (some ((1 : ℚ), (0 : ℚ), (0 : ℚ))) "bell" 2 none
      (fun _ => 1/2)).basis = pyUpper "bell" := by
  have h := c10_basis_fallback "bell" (by decide)
  exact ⟨h.1, h.2 _ _ _ _⟩

/-- C7: the measurement sampler computes
`p_plus = (1 + dot)/2` with the axis dot product clamped to `[-1,1]`,
`p_minus = 1 − p_plus`, and returns exactly `shots` samples for every
shot count (including zero); for axis Z on Bloch vector `(0,0,1)` and
any draw sequence in `[0,1)`, `p_plus = 1` and every sample is
`"plus"`. -/
theorem c7_measure_sampler (bloch : ℚ × ℚ × ℚ) (basis : String)
    (shots : Nat) (draws : Nat → ℚ) :
    ((measureCore (some bloch) basis shots none draws).p_plus
      = (1 + clamp1 (bloch.1 * (axisFor basis).1 + bloch.2.1 * (axisFor basis).2.1
          + bloch.2.2 * (axisFor basis).2.2)) / 2) ∧
    ((measureCore (some bloch) basis shots none draws).p_minus
      = 1 - (measureCore (some bloch) basis shots none draws).p_plus) ∧
    ((measureCore (some bloch) basis shots none draws).samples.length = shots) ∧
    ((∀ i, 0 ≤ draws i ∧ draws i < 1) →
      (measureCore (some ((0 : ℚ), (0 : ℚ), (1 : ℚ))) "Z" shots none draws).p_plus = 1 ∧
      ∀ s ∈ (measureCore (some ((0 : ℚ), (0 : ℚ), (1 : ℚ))) "Z" shots none draws).samples,
        s = "plus") := by
  have hlen : (measureCore (some bloch) basis shots none draws).samples
      = (List.range shots).map (fun i =>
          if draws i < (measureCore (some bloch) basis shots none draws).p_plus
          then "plus" else "minus") := rfl
  refine ⟨rfl, rfl, ?_, ?_⟩
  · rw [hlen]
    simp
  · intro hdraws
    have hp0 : (measureCore (some ((0 : ℚ), (0 : ℚ), (1 : ℚ))) "Z" shots none draws).p_plus
        = (1 + clamp1 ((0 : ℚ) * 0 + 0 * 0 + 1 * 1)) / 2 := rfl
    have hp : (measureCore (some ((0 : ℚ), (0 : ℚ), (1 : ℚ))) "Z" shots none draws).p_plus
        = 1 := by
      rw [hp0]
      norm_num [clamp1]
    refine ⟨hp, ?_⟩
    have hss : (measureCore (some ((0 : ℚ), (0 : ℚ), (1 : ℚ))) "Z" shots none draws).samples
        = (List.range shots).map (fun i =>
            if draws i < (measureCore (some ((0 : ℚ), (0 : ℚ), (1 : ℚ))) "Z" shots
                none draws).p_plus
            then "plus" else "minus") := rfl
    rw [hp] at hss
    intro s hs
    rw [hss] at hs
    obtain ⟨i, -, rfl⟩ := List.mem_map.mp hs
    rw [if_pos (hdraws i).2]

/-- Witness for `c7_measure_sampler` at Bloch `(0,0,1)`, basis Z, five
shots, with the constant draw sequence `1/2 ∈ [0,1)`. -/
theorem c7_measure_sampler_witness :
    (measureCore (some ((0 : ℚ), (0 : ℚ), (1 : ℚ))) "Z" 5 none
      (fun _ => 1/2)).samples.length = 5 ∧
    (measureCore (some ((0 : ℚ), (0 : ℚ), (1 : ℚ))) "Z" 5 none
      (fun _ => 1/2)).p_plus = 1 := by
  have h := c7_measure_sampler ((0 : ℚ), (0 : ℚ), (1 : ℚ)) "Z" 5 (fun _ => 1/2)
  exact ⟨h.2.2.1, (h.2.2.2 (fun i => by norm_num)).1⟩


/-- The single-pass loop of `_analyze_runs` computes, over the remaining
input, exactly the first-maximum of the runs decomposition plus the
adjacent-switch count. -/
lemma analyzeRunsGo_spec (xs : List String) : ∀ (prev lv : String) (ll cl sw : Nat),
    analyzeRunsGo prev ll lv cl sw xs
      = ((specFirstMaxGo ll lv (specRunsGo prev cl xs)).1,
         (specFirstMaxGo ll lv (specRunsGo prev cl xs)).2,
         sw + specSwitches (prev :: xs)) := by
  induction xs with
  | nil =>
    intro prev lv ll cl sw
    simp only [analyzeRunsGo, specRunsGo, specFirstMaxGo, specSwitches]
    by_cases h : ll < cl
    · rw [if_pos h, if_pos h]
      simp [specFirstMaxGo]
    · rw [if_neg h, if_neg h]
      simp [specFirstMaxGo]
  | cons c rest ih =>
    intro prev lv ll cl sw
    by_cases hc : c = prev
    · subst hc
      simp only [analyzeRunsGo, specRunsGo, specSwitches, if_pos rfl]
      rw [ih]
      simp
    · have hc' : ¬ prev = c := fun h => hc h.symm
      simp only [analyzeRunsGo, specRunsGo, specSwitches]
      rw [if_neg hc, if_neg hc, if_neg hc']
      by_cases hll : ll < cl
      · rw [if_pos hll]
        simp only [specFirstMaxGo]
        rw [if_pos hll, ih]
        simp [Nat.add_assoc]
      · rw [if_neg hll]
        simp only [specFirstMaxGo]
        rw [if_neg hll, ih]
        simp [Nat.add_assoc]

/-- Each maximal run accounts for one switch boundary: the runs
decomposition has one more element than the switch count. -/
lemma specRunsGo_length (xs : List String) : ∀ (sym : String) (len : Nat),
    (specRunsGo sym len xs).length = specSwitches (sym :: xs) + 1 := by
  induction xs with
  | nil =>
    intro sym len
    simp [specRunsGo, specSwitches]
  | cons c rest ih =>
    intro sym len
    by_cases hc : c = sym
    · subst hc
      simp only [specRunsGo, specSwitches, eq_self_iff_true, if_true]
      rw [ih]
      omega
    · have hc' : ¬ sym = c := fun h => hc h.symm
      simp only [specRunsGo, specSwitches]
      rw [if_neg hc, if_neg hc']
      simp only [List.length_cons]
      rw [ih]
      omega

/-- `specRunsGo` always emits the pending run first, with its length
only ever extended. -/
lemma specRunsGo_head (xs : List String) : ∀ (sym : String) (len : Nat),
    ∃ n tail, specRunsGo sym len xs = (sym, n) :: tail ∧ len ≤ n := by
  induction xs with
  | nil =>
    intro sym len
    exact ⟨len, [], rfl, le_refl _⟩
  | cons c rest ih =>
    intro sym len
    by_cases hc : c = sym
    · subst hc
      obtain ⟨n, tail, heq, hle⟩ := ih c (len + 1)
      rw [specRunsGo, if_pos rfl]
      exact ⟨n, tail, heq, by omega⟩
    · rw [specRunsGo, if_neg hc]
      exact ⟨len, _, rfl, le_refl _⟩

/-- Every run in the decomposition has positive length (given a
positive pending length). -/
lemma specRunsGo_pos (xs : List String) : ∀ (sym : String) (len : Nat),
    1 ≤ len → ∀ r ∈ specRunsGo sym len xs, 1 ≤ r.2 := by
  induction xs with
  | nil =>
    intro sym len hlen r hr
    simp only [specRunsGo, List.mem_singleton] at hr
    rw [hr]
    exact hlen
  | cons c rest ih =>
    intro sym len hlen r hr
    by_cases hc : c = sym
    · subst hc
      rw [specRunsGo, if_pos rfl] at hr
      exact ih c (len + 1) (by omega) r hr
    · rw [specRunsGo, if_neg hc] at hr
      rcases List.mem_cons.mp hr with h | h
      · rw [h]
        exact hlen
      · exact ih c 1 (le_refl _) r h

/-- The first-maximum fold only ever increases the best length, and the
result dominates every run length. -/
lemma specFirstMaxGo_max (rs : List (String × Nat)) : ∀ (bl : Nat) (bs : String),
    bl ≤ (specFirstMaxGo bl bs rs).1 ∧
    ∀ r ∈ rs, r.2 ≤ (specFirstMaxGo bl bs rs).1 := by
  induction rs with
  | nil =>
    intro bl bs
    exact ⟨le_refl _, fun r hr => absurd hr (List.not_mem_nil r)⟩
  | cons p rest ih =>
    intro bl bs
    obtain ⟨s, n⟩ := p
    by_cases h : bl < n
    · rw [specFirstMaxGo, if_pos h]
      obtain ⟨h1, h2⟩ := ih n s
      refine ⟨by omega, fun r hr => ?_⟩
      rcases List.mem_cons.mp hr with hr | hr
      · rw [hr]; exact h1
      · exact h2 r hr
    · rw [specFirstMaxGo, if_neg h]
      obtain ⟨h1, h2⟩ := ih bl bs
      refine ⟨h1, fun r hr => ?_⟩
      rcases List.mem_cons.mp hr with hr | hr
      · rw [hr]; simp only []; omega
      · exact h2 r hr

/-- The first-maximum fold either keeps its initial accumulator (when
nothing exceeds it) or returns the first run strictly exceeding all
earlier ones. -/
lemma specFirstMaxGo_first (rs : List (String × Nat)) : ∀ (bl : Nat) (bs : String),
    (specFirstMaxGo bl bs rs = (bl, bs) ∧ ∀ r ∈ rs, r.2 ≤ bl) ∨
    (∃ i, ∃ h : i < rs.length,
      rs.get ⟨i, h⟩ = ((specFirstMaxGo bl bs rs).2, (specFirstMaxGo bl bs rs).1) ∧
      bl < (specFirstMaxGo bl bs rs).1 ∧
      ∀ j (hj : j < rs.length), j < i →
        (rs.get ⟨j, hj⟩).2 < (specFirstMaxGo bl bs rs).1) := by
  induction rs with
  | nil =>
    intro bl bs
    exact .inl ⟨rfl, fun r hr => absurd hr (List.not_mem_nil r)⟩
  | cons p rest ih =>
    intro bl bs
    obtain ⟨s, n⟩ := p
    by_cases h : bl < n
    · right
      rw [specFirstMaxGo, if_pos h]
      rcases ih n s with ⟨heq, hall⟩ | ⟨i, hi, hget, hlt, hpre⟩
      · refine ⟨0, by simp, ?_, ?_, ?_⟩
        · rw [heq]; rfl
        · rw [heq]; exact h
        · intro j hj hj0
          omega
      · refine ⟨i + 1, by simpa using hi, by simpa using hget, by omega, ?_⟩
        intro j hj hji
        cases j with
        | zero =>
          simp only [List.get]
          omega
        | succ j =>
          have hj' : j < rest.length := by simpa using hj
          have := hpre j hj' (by omega)
          simpa using this
    · rw [specFirstMaxGo, if_neg h]
      rcases ih bl bs with ⟨heq, hall⟩ | ⟨i, hi, hget, hlt, hpre⟩
      · left
        refine ⟨heq, fun r hr => ?_⟩
        rcases List.mem_cons.mp hr with hr | hr
        · rw [hr]; simp only []; omega
        · exact hall r hr
      · right
        refine ⟨i + 1, by simpa using hi, by simpa using hget, hlt, ?_⟩
        intro j hj hji
        cases j with
        | zero =>
          simp only [List.get]
          omega
        | succ j =>
          have hj' : j < rest.length := by simpa using hj
          have := hpre j hj' (by omega)
          simpa using this

/-- Starting the fold from the first run equals starting it from the
`(0, "")` seed, since run lengths are positive. -/
lemma specFirstMax_init (x : String) (n : Nat) (tail : List (String × Nat))
    (hn : 1 ≤ n) :
    specFirstMaxGo 1 x ((x, n) :: tail) = specFirstMaxGo 0 "" ((x, n) :: tail) := by
  simp only [specFirstMaxGo]
  rcases Nat.lt_or_ge 1 n with h | h
  · rw [if_pos h, if_pos (by omega)]
  · have hn1 : n = 1 := by omega
    subst hn1
    rw [if_neg (by omega), if_pos (by omega)]


/-- C8: `_analyze_runs` returns (longest-run length, its symbol, switch
count) where the switch count is the number of adjacent unequal pairs
(`specSwitches`), `switches + 1` equals the number of maximal
same-outcome runs for any non-empty sequence, and the reported run is
the longest one with first-seen ties winning: its length dominates every
run, and it occurs at an index all of whose predecessors are strictly
shorter.  The empty sequence yields `(0, "", 0)`. -/
theorem c8_run_analysis (l : List String) :
    analyzeRuns l = ((specFirstMax (specRuns l)).1, (specFirstMax (specRuns l)).2,
      specSwitches l) ∧
    (l ≠ [] → specSwitches l + 1 = (specRuns l).length) ∧
    (∀ r ∈ specRuns l, r.2 ≤ (specFirstMax (specRuns l)).1) ∧
    (l ≠ [] → ∃ i, ∃ h : i < (specRuns l).length,
      (specRuns l).get ⟨i, h⟩
        = ((specFirstMax (specRuns l)).2, (specFirstMax (specRuns l)).1) ∧
      ∀ j (hj : j < (specRuns l).length), j < i →
        ((specRuns l).get ⟨j, hj⟩).2 < (specFirstMax (specRuns l)).1) ∧
    analyzeRuns [] = (0, "", 0) := by
  cases l with
  | nil =>
    refine ⟨rfl, fun h => absurd rfl h, ?_, fun h => absurd rfl h, rfl⟩
    intro r hr
    exact absurd hr (List.not_mem_nil r)
  | cons x rest =>
    obtain ⟨n, tail, hR, hn⟩ := specRunsGo_head rest x 1
    have hRuns : specRuns (x :: rest) = (x, n) :: tail := by
      rw [specRuns, hR]
    refine ⟨?_, ?_, ?_, ?_, rfl⟩
    · rw [analyzeRuns, analyzeRunsGo_spec]
      rw [specRuns, hR, specFirstMax, specFirstMax_init x n tail hn]
      simp [specSwitches]
    · rintro -
      rw [specRuns, specRunsGo_length]
    · intro r hr
      rw [hRuns] at hr ⊢
      exact (specFirstMaxGo_max ((x, n) :: tail) 0 "").2 r hr
    · rintro -
      rw [hRuns]
      rcases specFirstMaxGo_first ((x, n) :: tail) 0 "" with ⟨heq, hall⟩ | hfound
      · exfalso
        have hpos : 1 ≤ n := hn
        have := hall (x, n) (List.mem_cons_self _ _)
        omega
      · obtain ⟨i, hi, hget, -, hpre⟩ := hfound
        exact ⟨i, hi, hget, hpre⟩

/-- Witness for `c8_run_analysis` on the sequence
`["plus", "plus", "minus"]`: longest run 2 of `"plus"`, one switch, two
maximal runs. -/
theorem c8_run_analysis_witness :
    analyzeRuns ["plus", "plus", "minus"]
      = ((specFirstMax (specRuns ["plus", "plus", "minus"])).1,
         (specFirstMax (specRuns ["plus", "plus", "minus"])).2,
         specSwitches ["plus", "plus", "minus"]) ∧
    specSwitches ["plus", "plus", "minus"] + 1
      = (specRuns ["plus", "plus", "minus"]).length ∧
    analyzeRuns ["plus", "plus", "minus"] = (2, "plus", 1) := by
  have h := c8_run_analysis ["plus", "plus", "minus"]
  exact ⟨h.1, h.2.1 (by decide), by decide⟩


/-- C1: starting from a service state that has not seen the
fingerprint, two `generate` calls with identical cache fingerprints
(same `(qubit_count, global_phase, gate tuples, noise strengths,
focus_qubit)` key, possibly from different `Circuit` objects) invoke the
injected simulator exactly once combined — the first call is the sole
miss, the second is a hit returning the same snapshot tuple — while a
third call changing only `focus_qubit` (to a likewise-unseen key) is a
cache miss triggering a second simulator invocation. -/
theorem c1_cache_single_simulation {σ : Type}
    (sim : Circuit → Option NoiseCfg → Option Int → List σ)
    (st : ServiceState σ) (c1 c2 : Circuit) (noise1 noise2 : Option NoiseCfg)
    (f f2 : Option Int)
    (hkey : cacheKey c1 noise1 f = cacheKey c2 noise2 f)
    (hfresh : lookupCache st.cache (cacheKey c1 noise1 f) = none)
    (hfresh2 : lookupCache st.cache (cacheKey c1 noise1 f2) = none)
    (hf : f ≠ f2) :
    ((generate sim st c1 noise1 f).2.misses = st.misses + 1 ∧
     (generate sim st c1 noise1 f).2.simCalls = st.simCalls + 1) ∧
    ((generate sim (generate sim st c1 noise1 f).2 c2 noise2 f).1
        = (generate sim st c1 noise1 f).1 ∧
     (generate sim (generate sim st c1 noise1 f).2 c2 noise2 f).2.hits
        = (generate sim st c1 noise1 f).2.hits + 1 ∧
     (generate sim (generate sim st c1 noise1 f).2 c2 noise2 f).2.misses
        = st.misses + 1 ∧
     (generate sim (generate sim st c1 noise1 f).2 c2 noise2 f).2.simCalls
        = st.simCalls + 1) ∧
    ((generate sim (generate sim (generate sim st c1 noise1 f).2 c2 noise2 f).2
        c1 noise1 f2).2.misses = st.misses + 2 ∧
     (generate sim (generate sim (generate sim st c1 noise1 f).2 c2 noise2 f).2
        c1 noise1 f2).2.simCalls = st.simCalls + 2) := by
  have hne : cacheKey c1 noise1 f ≠ cacheKey c1 noise1 f2 := by
    intro h
    exact hf (congrArg CacheKey.focus_qubit h)
  have h1 : generate sim st c1 noise1 f
      = (sim c1 noise1 f,
         { st with
            misses := st.misses + 1
            simCalls := st.simCalls + 1
            cache := (cacheKey c1 noise1 f, sim c1 noise1 f) :: st.cache }) := by
    unfold generate fetchSnapshots
    dsimp only
    rw [hfresh]
  have h2 : generate sim (generate sim st c1 noise1 f).2 c2 noise2 f
      = (sim c1 noise1 f,
         { st with
            misses := st.misses + 1
            simCalls := st.simCalls + 1
            hits := st.hits + 1
            cache := (cacheKey c1 noise1 f, sim c1 noise1 f) :: st.cache }) := by
    rw [h1]
    unfold generate fetchSnapshots
    dsimp only [lookupCache]
    rw [if_pos hkey]
  have h3 : lookupCache ((cacheKey c1 noise1 f, sim c1 noise1 f) :: st.cache)
      (cacheKey c1 noise1 f2) = none := by
    simp only [lookupCache]
    rw [if_neg hne]
    exact hfresh2
  refine ⟨⟨by rw [h1], by rw [h1]⟩, ⟨by rw [h2, h1], by rw [h2, h1], by rw [h2],
    by rw [h2]⟩, ?_, ?_⟩
  · rw [h2]
    unfold generate fetchSnapshots
    dsimp only
    rw [h3]
  · rw [h2]
    unfold generate fetchSnapshots
    dsimp only
    rw [h3]

/-- Witness for `c1_cache_single_simulation`: a fresh service, a
one-qubit circuit, focus 0 versus focus 1, a simulator counting nothing
but returning `[7]`. -/
theorem c1_cache_single_simulation_witness :
    (generate (fun _ _ _ => ([7] : List Nat)) (emptyService (σ := Nat))
      { qubit_count := 1 } none (some 0)).2.misses = 1 ∧
    (generate (fun _ _ _ => ([7] : List Nat))
      (generate (fun _ _ _ => ([7] : List Nat)) (emptyService (σ := Nat))
        { qubit_count := 1 } none (some 0)).2
      { qubit_count := 1 } none (some 0)).2.simCalls = 1 := by
  have h := c1_cache_single_simulation (fun _ _ _ => ([7] : List Nat))
    (emptyService (σ := Nat)) { qubit_count := 1 } { qubit_count := 1 }
    none none (some 0) (some 1) rfl rfl rfl (by decide)
  exact ⟨h.1.1, h.2.1.2.2.2⟩


/-- The simulator loop only ever appends to its accumulator. -/
lemma simulateGo_prefix (B : Backend) (n : Nat) (noise : Option NoiseCfg) (focus : Int) :
    ∀ (gs : List Gate) (idx : Nat) (d : List (List CQ)) (st : Option (List CQ))
      (acc out : List SnapshotE),
      simulateGo B n noise focus gs idx d st acc = .ok out →
      ∃ tail, out = acc ++ tail := by
  intro gs
  induction gs with
  | nil =>
    intro idx d st acc out h
    simp only [simulateGo] at h
    cases h
    exact ⟨[], (List.append_nil acc).symm⟩
  | cons g gs ih =>
    intro idx d st acc out h
    simp only [simulateGo] at h
    cases hg : apply_gate_to_circuit g with
    | error e => rw [hg] at h; exact absurd h (by simp)
    | ok ops =>
      rw [hg] at h
      simp only [] at h
      obtain ⟨tail, htail⟩ := ih (idx + 1) _ _ _ out h
      rw [htail, List.append_assoc]
      exact ⟨_, rfl⟩

/-- C5: a successful `simulate` run on a circuit with `n` gates returns
exactly `n + 1` snapshots with step indices `0..n` in order; snapshot 0
carries the all-zero density matrix `|0…0⟩⟨0…0|` (unchanged by any
global phase) and the all-zero state vector, multiplied by the backend's
`exp(i·φ)` scalar exactly when `global_phase` is present and nonzero. -/
theorem c5_snapshot_sequence (B : Backend) (c : Circuit) (noise : Option NoiseCfg)
    (f : Option Int) (snaps : List SnapshotE)
    (h : simulateAll B c noise f = .ok snaps) :
    snaps.length = c.gates.length + 1 ∧
    snaps.map (fun s => s.step) = List.range (c.gates.length + 1) ∧
    ∀ s0, snaps.head? = some s0 →
      s0.step = 0 ∧
      s0.density_matrix = some (dmFromLabelZero c.qubit_count).flatten ∧
      s0.statevector = some (if truthy c.global_phase
        then B.expIMul (c.global_phase.getD 0) (svFromLabelZero c.qubit_count)
        else svFromLabelZero c.qubit_count) := by
  simp only [simulateAll] at h
  obtain ⟨hlen, hmap, -⟩ := simulateGo_spec B c.qubit_count noise _ c.gates 1 _ _ _ snaps h
  obtain ⟨tail, htail⟩ := simulateGo_prefix B c.qubit_count noise _ c.gates 1 _ _ _ snaps h
  refine ⟨by simp at hlen; omega, ?_, ?_⟩
  · rw [hmap, List.range_eq_range', List.range'_succ]
    simp [buildSnapshot]
  · intro s0 hs0
    rw [htail] at hs0
    simp only [List.cons_append, List.head?_cons, Option.some.injEq] at hs0
    rw [← hs0]
    exact ⟨rfl, rfl, rfl⟩

/-- Witness for `c5_snapshot_sequence`: one qubit, no gates, global
phase 2. -/
theorem c5_snapshot_sequence_witness :
    [buildSnapshot trivialBackend 1 0 (dmFromLabelZero 1)
      (some (trivialBackend.expIMul 2 (svFromLabelZero 1))) 0
      [("gate", "INIT")]].length = 0 + 1 ∧
    (buildSnapshot trivialBackend 1 0 (dmFromLabelZero 1)
      (some (trivialBackend.expIMul 2 (svFromLabelZero 1))) 0
      [("gate", "INIT")]).statevector
      = some (trivialBackend.expIMul 2 (svFromLabelZero 1)) := by
  have hsnaps : simulateAll trivialBackend
      { qubit_count := 1, gates := [], global_phase := some 2 } none none
      = .ok [buildSnapshot trivialBackend 1 0 (dmFromLabelZero 1)
          (some (trivialBackend.expIMul 2 (svFromLabelZero 1))) 0
          [("gate", "INIT")]] := rfl
  have h := c5_snapshot_sequence trivialBackend
    { qubit_count := 1, gates := [], global_phase := some 2 } none none _ hsnaps
  refine ⟨h.1, ?_⟩
  exact (h.2.2 _ rfl).2.2

/-- C6: on a successful run with noise enabled, no snapshot of step ≥ 1
carries a state vector (the pure track is discarded as soon as noise is
applied, and stays discarded), while every snapshot carries a density
matrix. -/
theorem c6_noise_discards_statevector (B : Backend) (c : Circuit) (nc : NoiseCfg)
    (f : Option Int) (snaps : List SnapshotE)
    (hen : nc.enabled = true)
    (h : simulateAll B c (some nc) f = .ok snaps) :
    (∀ s ∈ snaps, 1 ≤ s.step → s.statevector = none) ∧
    (∀ s ∈ snaps, s.density_matrix.isSome = true) := by
  simp only [simulateAll] at h
  obtain ⟨-, -, hmem⟩ := simulateGo_spec B c.qubit_count (some nc) _ c.gates 1 _ _ _ snaps h
  constructor
  · intro s hs hstep
    rcases hmem s hs with hacc | ⟨-, -, hsv, -⟩
    · rw [List.mem_singleton] at hacc
      rw [hacc] at hstep
      simp [buildSnapshot] at hstep
    · exact hsv (by simp [noisyOf, hen])
  · intro s hs
    rcases hmem s hs with hacc | ⟨-, hd, -, -⟩
    · rw [List.mem_singleton] at hacc
      rw [hacc]
      rfl
    · exact hd

/-- Witness for `c6_noise_discards_statevector`: one X gate under
depolarizing noise 1; the step-1 snapshot carries no state vector. -/
theorem c6_noise_discards_statevector_witness :
    (buildSnapshot trivialBackend 1 1 (dmFromLabelZero 1) none 0
      (gateMetadata { name := "X", targets := [0] })).statevector = none ∧
    (buildSnapshot trivialBackend 1 1 (dmFromLabelZero 1) none 0
      (gateMetadata { name := "X", targets := [0] })).density_matrix.isSome = true := by
  have hsnaps : simulateAll trivialBackend
      { qubit_count := 1, gates := [{ name := "X", targets := [0] }],
        global_phase := none }
      (some { depolarizing := some 1 }) none
      = .ok [buildSnapshot trivialBackend 1 0 (dmFromLabelZero 1)
          (some (svFromLabelZero 1)) 0 [("gate", "INIT")],
         buildSnapshot trivialBackend 1 1 (dmFromLabelZero 1) none 0
          (gateMetadata { name := "X", targets := [0] })] := rfl
  have h := c6_noise_discards_statevector trivialBackend
    { qubit_count := 1, gates := [{ name := "X", targets := [0] }],
      global_phase := none }
    { depolarizing := some 1 } none _ (by norm_num [NoiseCfg.enabled]) hsnaps
  constructor
  · exact h.1 _ (List.mem_cons_of_mem _ (List.mem_cons_self _ _)) (le_refl 1)
  · exact h.2 _ (List.mem_cons_of_mem _ (List.mem_cons_self _ _))


end QB
